import Mathlib

/-!
Verification development for the MediChronicle document pipeline
(classification orchestration, document repository, timeline assembly,
synthesis serialization, and the two export encodings).

The definitions below are shallow embeddings of the TypeScript source:
`geminiService` (classification and synthesis orchestration),
`storageService` (IndexedDB-backed document repository), and
`ReportDisplay` (the fixed-page PDF export and the flow Word export).
External effects are modelled explicitly: the classification/synthesis
service responses are inputs, the id supply (`Math.random`-based) and the
display-handle supply (`URL.createObjectURL`) are function parameters, and
JS numbers are exact rationals.
-/

/-- JS `o || dflt` on an optional string: `null`/`undefined` and `""` are falsy. -/
def jsOrStr (o : Option String) (dflt : String) : String :=
  match o with
  | none => dflt
  | some s => if s = "" then dflt else s

/-- JS `o || null` on an optional string: a missing or empty-string value
normalizes to `null` (`item.date || null` in `analyzeDocumentsMetadata`). -/
def jsOrNull (o : Option String) : Option String :=
  match o with
  | none => none
  | some s => if s = "" then none else some s

/-- JS truthiness of an optional string (`null`, `undefined` and `""` are falsy). -/
def jsTruthy (o : Option String) : Bool :=
  match o with
  | none => false
  | some s => !(s == "")

/-- The parts of a browser `File` object that the program reads:
`file.name`, `file.type` (MIME), and its binary content. -/
structure FileV where
  name : String
  type : String
  content : String
deriving DecidableEq, Repr

/-- `ProcessedDocument` from `types.ts`: id, the file payload, the ephemeral
display handle `previewUrl`, optional ISO date, category, summary, duplicate
flag and optional original index. The category is kept as its runtime string
(the TS union `'LAB' | 'IMAGING' | 'PRESCRIPTION' | 'NOTE' | 'OTHER'`). -/
structure ProcessedDocument where
  id : String
  file : FileV
  previewUrl : String
  date : Option String
  type : String
  summary : String
  isDuplicate : Bool
  originalIndex : Option Nat
deriving DecidableEq, Repr

/-- A document as persisted by `saveDocumentsToStorage`: every field of
`ProcessedDocument` except the stripped `previewUrl`. -/
structure StoredDocument where
  id : String
  file : FileV
  date : Option String
  type : String
  summary : String
  isDuplicate : Bool
  originalIndex : Option Nat
deriving DecidableEq, Repr

/-- `const (previewUrl, ...docToSave) = doc` — drop the display handle. -/
def stripPreviewUrl (d : ProcessedDocument) : StoredDocument :=
  ⟨d.id, d.file, d.date, d.type, d.summary, d.isDuplicate, d.originalIndex⟩

/-- `(...doc, previewUrl := URL.createObjectURL(doc.file))` — reattach a handle. -/
def withPreviewUrl (sd : StoredDocument) (url : String) : ProcessedDocument :=
  ⟨sd.id, sd.file, url, sd.date, sd.type, sd.summary, sd.isDuplicate, sd.originalIndex⟩

/-! ### Payload Normalizer: `compressImage` (geminiService)

The dimension computation of `compressImage`, with JS numbers modelled as
exact rationals (the algorithm's arithmetic; canvas integer coercion and
JPEG re-encoding are outside the model). -/

/-- The downscale of `compressImage`: `MAX_WIDTH = 1000`, `MAX_HEIGHT = 1400`;
only the larger side's bound is applied, chosen by the `width > height` test. -/
def compressImageDims (w h : ℚ) : ℚ × ℚ :=
  if w > h then
    if w > 1000 then (1000, h * (1000 / w)) else (w, h)
  else
    if h > 1400 then (w * (1400 / h), 1400) else (w, h)

/-! ### Classification Orchestrator: `analyzeDocumentsMetadata` (geminiService)

The loop walks the file list in chunks of `BATCH_SIZE`. Per batch it issues
one service call; the call's outcome (network/permission failure, JSON
syntax failure of `JSON.parse(response.text || "[]")`, or the parsed entry
list) is modelled as the value `svc k` for the `k`-th call. Each parsed
entry is pushed as one record with a freshly generated id (`Math.random`
modelled by the supply `idGen`); the progress callback fires after each
successful batch with `(min (i + BATCH_SIZE) total, total)`. -/

/-- One entry of the classification service's parsed JSON response. -/
structure RawItem where
  date : Option String
  type : String
  summary : String
  isDuplicate : Bool
deriving DecidableEq, Repr

/-- A classification record as pushed onto `allResults`. -/
structure MetaRecord where
  id : String
  date : Option String
  type : String
  summary : String
  isDuplicate : Bool
deriving DecidableEq, Repr

def BATCH_SIZE : Nat := 10

/-- `allResults.push({ id: ..., date: item.date || null, ... })`. -/
def mkRecord (idStr : String) (it : RawItem) : MetaRecord :=
  ⟨idStr, jsOrNull it.date, it.type, it.summary, it.isDuplicate⟩

/-- Records built from one batch's entries, ids drawn from the supply from `start`. -/
def mkRecords (idGen : Nat → String) (start : Nat) : List RawItem → List MetaRecord
  | [] => []
  | it :: its => mkRecord (idGen start) it :: mkRecords idGen (start + 1) its

/-- Mutable state of the orchestration loop: accumulated records, the
progress reports fired so far, service calls made, and ids consumed. -/
structure AnalyzeState where
  results : List MetaRecord
  progress : List (Nat × Nat)
  calls : Nat
  idCtr : Nat
deriving DecidableEq, Repr

deriving instance DecidableEq for Except

/-- Observable outcome of `analyzeDocumentsMetadata`: the returned records
(or the thrown error), plus the progress reports and service calls that
happened along the way. -/
structure AnalyzeOutcome where
  records : Except String (List MetaRecord)
  progress : List (Nat × Nat)
  calls : Nat
deriving DecidableEq, Repr

/-- The batch loop of `analyzeDocumentsMetadata`. The fuel argument only
drives the recursion; `analyzeDocumentsMetadata` supplies enough fuel that
the exhaustion branch is unreachable (each step drops `BATCH_SIZE ≥ 1`
files). -/
def analyzeGo (svc : Nat → Except String (List RawItem)) (idGen : Nat → String)
    (total : Nat) : Nat → Nat → List String → AnalyzeState → AnalyzeOutcome
  | _, _, [], st => ⟨.ok st.results, st.progress, st.calls⟩
  | 0, _, _ :: _, st => ⟨.ok st.results, st.progress, st.calls⟩
  | fuel + 1, i, f :: fs, st =>
    match svc st.calls with
    | .error e => ⟨.error e, st.progress, st.calls + 1⟩
    | .ok items =>
      analyzeGo svc idGen total fuel (i + BATCH_SIZE) ((f :: fs).drop BATCH_SIZE)
        ⟨st.results ++ mkRecords idGen st.idCtr items,
         st.progress ++ [(min (i + BATCH_SIZE) total, total)],
         st.calls + 1,
         st.idCtr + items.length⟩

/-- `analyzeDocumentsMetadata(files, onProgress)`. -/
def analyzeDocumentsMetadata (files : List String)
    (svc : Nat → Except String (List RawItem)) (idGen : Nat → String) : AnalyzeOutcome :=
  analyzeGo svc idGen files.length files.length 0 files ⟨[], [], 0, 0⟩

/-- Number of batches the loop runs for `n` files: `⌈n / BATCH_SIZE⌉`. -/
def batchesOf (n : Nat) : Nat := (n + BATCH_SIZE - 1) / BATCH_SIZE

/-- The entry list of a response, `[]` for a failure (used only to state
hypotheses about successful responses). -/
def okItems (r : Except String (List RawItem)) : List RawItem :=
  match r with
  | .ok its => its
  | .error _ => []

/-- The concatenation of the entries of responses `start, ..., start+cnt-1`. -/
def collectEntries (svc : Nat → Except String (List RawItem)) : Nat → Nat → List RawItem
  | _, 0 => []
  | start, cnt + 1 => okItems (svc start) ++ collectEntries svc (start + 1) cnt

/-! ### Timeline Assembler and Synthesis Orchestrator: `generateMedicalReport`

`generateMedicalReport` filters the active subset
(`!d.isDuplicate || d.type === 'IMAGING'`), sorts it by
`(a.date || '').localeCompare(b.date || '')`, serializes each active
document as one `Date: ... | Type: ... | Finding: ...` line, joins the
lines with newlines into one prompt, and parses the single service
response with `JSON.parse(response.text || "{}")`, returning the parsed
object unvalidated. JS `Array.prototype.sort` is stable (ES2019), modelled
by `List.insertionSort`; `localeCompare` on ISO date strings is modelled
as code-point lexicographic comparison. -/

/-- `!d.isDuplicate || d.type === 'IMAGING'`. -/
def isActive (d : ProcessedDocument) : Bool := !d.isDuplicate || d.type == "IMAGING"

/-- The sort key `d.date || ''`. -/
def synthDateKey (d : ProcessedDocument) : String := jsOrStr d.date ""

/-- Code-point lexicographic comparison of character lists (`x ≤ y`). -/
def strLeb : List Char → List Char → Bool
  | [], _ => true
  | _ :: _, [] => false
  | a :: as, b :: bs => if a < b then true else if b < a then false else strLeb as bs

/-- Lexicographic string comparison, the model of
`a.localeCompare(b) <= 0` on the ISO date strings involved. -/
def lexLe (x y : String) : Bool := strLeb x.data y.data

/-- The synthesis ordering: `(a.date || '').localeCompare(b.date || '') <= 0`. -/
def synthLe (a b : ProcessedDocument) : Prop :=
  lexLe (synthDateKey a) (synthDateKey b) = true

instance : DecidableRel synthLe := fun a b =>
  inferInstanceAs (Decidable (lexLe (synthDateKey a) (synthDateKey b) = true))

/-- `documents.filter(...).sort(...)` — the synthesis input. -/
def activeDocs (docs : List ProcessedDocument) : List ProcessedDocument :=
  List.insertionSort synthLe (docs.filter isActive)

/-- One serialized timeline line:
`Date: ${d.date || 'Unknown'} | Type: ${d.type} | Finding: ${d.summary}`. -/
def timelineLine (d : ProcessedDocument) : String :=
  "Date: " ++ jsOrStr d.date "Unknown" ++ " | Type: " ++ d.type ++ " | Finding: " ++ d.summary

/-- `activeDocs.map(...).join('\n')`. -/
def timelineText (docs : List ProcessedDocument) : String :=
  String.intercalate "\n" ((activeDocs docs).map timelineLine)

/-- The single synthesis request prompt embedding the serialized timeline. -/
def synthesisPrompt (docs : List ProcessedDocument) : String :=
  "Synthesize this medical timeline:\n" ++ timelineText docs ++
    "\n\nReturn JSON with: history, summary, prognosis."

/-- Runtime shape of `JSON.parse(...) as ReportData`: the TS cast performs no
runtime checks, so each of the three narrative fields may be absent. -/
structure RawReport where
  history : Option String
  summary : Option String
  prognosis : Option String
deriving DecidableEq, Repr

/-- The JSON text `"{}"` substituted for an absent or empty response text. -/
def emptyJsonObject : String := "\x7b\x7d"

/-- Model of the JS builtin `JSON.parse` on report objects, specified only
where this development evaluates it: the empty object literal parses to the
record with every field absent (JSON.parse("\x7b\x7d") is the empty object);
anything else is treated as a syntax error. -/
def jsonParseReport : String → Except String RawReport := fun s =>
  if s = emptyJsonObject then .ok ⟨none, none, none⟩ else .error "SyntaxError"

/-- `generateMedicalReport(documents)`. The external service call (receiving
the prompt built from the documents) is `svc`: a thrown network/permission
error or the optional `response.text`. `parse` is `JSON.parse` on the
defaulted text; its result is returned without any field validation. -/
def generateMedicalReport (docs : List ProcessedDocument)
    (svc : String → Except String (Option String))
    (parse : String → Except String RawReport) : Except String RawReport :=
  match svc (synthesisPrompt docs) with
  | .error e => .error e
  | .ok text => parse (jsOrStr text emptyJsonObject)

/-! ### Document Repository: `storageService`

IndexedDB object store with `keyPath: 'id'`. `put` replaces the record
with the same key or inserts; `getAll()` returns records in ascending key
order. Display handles come from `URL.createObjectURL`, modelled as an
opaque injective supply `newUrl` indexed by a process-lifetime counter. -/

/-- `store.put(docToSave)` keyed on `id`. -/
def idbPut (store : List StoredDocument) (d : StoredDocument) : List StoredDocument :=
  if store.any (fun e => e.id == d.id) then
    store.map (fun e => if e.id == d.id then d else e)
  else store ++ [d]

/-- `saveDocumentsToStorage(docs)`: clear, then put each document minus its
`previewUrl`, in one transaction. -/
def saveDocumentsToStorage (docs : List ProcessedDocument) : List StoredDocument :=
  docs.foldl (fun s d => idbPut s (stripPreviewUrl d)) []

instance : DecidableRel (fun a b : StoredDocument => lexLe a.id b.id = true) := fun a b =>
  inferInstanceAs (Decidable (lexLe a.id b.id = true))

/-- `store.getAll()` returns the records in ascending key order. -/
def idbGetAll (store : List StoredDocument) : List StoredDocument :=
  List.insertionSort (fun a b => lexLe a.id b.id = true) store

/-- `loadDocumentsFromStorage()`: every persisted document, with a fresh
display handle generated for each (`URL.createObjectURL(doc.file)`), and
the advanced handle counter. -/
def loadDocumentsFromStorage (store : List StoredDocument) (newUrl : Nat → String)
    (ctr : Nat) : List ProcessedDocument × Nat :=
  ((idbGetAll store).enum.map (fun p => withPreviewUrl p.2 (newUrl (ctr + p.1))),
   ctr + (idbGetAll store).length)

/-! ### Export Renderer: `ReportDisplay`

`sortedDocs` is computed once in the component body from a copy of the
document list, with comparator
`(a, b) => !a.date || !b.date ? 0 : new Date(a.date).getTime() - new Date(b.date).getTime()`;
`dateMillis` abstracts `new Date(s).getTime()`. Both export handlers
(`handleDownloadPdf` and `handleDownloadWord`) iterate this one list for
their index table and again for their appendix units. -/

/-- The `sortedDocs` comparator. -/
def sortCmp (dateMillis : String → Int) (a b : ProcessedDocument) : Int :=
  if !(jsTruthy a.date) || !(jsTruthy b.date) then 0
  else dateMillis (jsOrStr a.date "") - dateMillis (jsOrStr b.date "")

/-- `sortCmp a b <= 0`, the ordering used by the stable JS sort. -/
def sortedLe (dateMillis : String → Int) (a b : ProcessedDocument) : Prop :=
  sortCmp dateMillis a b ≤ 0

instance (dateMillis : String → Int) : DecidableRel (sortedLe dateMillis) := fun a b =>
  inferInstanceAs (Decidable (sortCmp dateMillis a b ≤ 0))

/-- `const sortedDocs = [...documents].sort(...)` — the chronological list
shared by both export encodings. -/
def sortedDocs (dateMillis : String → Int) (docs : List ProcessedDocument) :
    List ProcessedDocument :=
  List.insertionSort (sortedLe dateMillis) docs

/-- One row of the master document index table (both encodings). -/
structure IndexRow where
  ref : Nat
  dateCell : String
  typeCell : String
  summaryCell : String
deriving DecidableEq, Repr

/-- One appendix unit of the fixed-page PDF export (its own page). -/
structure PdfAppendixUnit where
  ref : Nat
  typeLabel : String
  dateLine : String
  fileName : String
  summaryText : String
  isImage : Bool
deriving DecidableEq, Repr

/-- One appendix unit of the flow Word export (forced section break). -/
structure WordAppendixUnit where
  ref : Nat
  typeLabel : String
  fileName : String
  summaryText : String
  isImage : Bool
deriving DecidableEq, Repr

/-- PDF index rows: `sortedDocs.forEach((doc, idx) => ...)`, one row per
document, with `doc.date ? new Date(doc.date).toLocaleDateString() : 'N/A'`
(`fmtDate` abstracts `toLocaleDateString`). -/
def pdfIndexRows (dateMillis : String → Int) (fmtDate : String → String)
    (docs : List ProcessedDocument) : List IndexRow :=
  (sortedDocs dateMillis docs).enum.map fun p =>
    ⟨p.1 + 1,
     if jsTruthy p.2.date then fmtDate (jsOrStr p.2.date "") else "N/A",
     p.2.type, p.2.summary⟩

/-- PDF appendix units: `for (let i = 0; i < sortedDocs.length; i++)`,
one new page per document. -/
def pdfAppendixUnits (dateMillis : String → Int)
    (docs : List ProcessedDocument) : List PdfAppendixUnit :=
  (sortedDocs dateMillis docs).enum.map fun p =>
    ⟨p.1 + 1, p.2.type, jsOrStr p.2.date "Unknown", p.2.file.name, p.2.summary,
     p.2.file.type.startsWith "image/"⟩

/-- Word index rows: one `<tr>` per document, date cell `doc.date || 'N/A'`. -/
def wordIndexRows (dateMillis : String → Int)
    (docs : List ProcessedDocument) : List IndexRow :=
  (sortedDocs dateMillis docs).enum.map fun p =>
    ⟨p.1 + 1, jsOrStr p.2.date "N/A", p.2.type, p.2.summary⟩

/-- Word appendix units: one `div.appendix-item` per document. -/
def wordAppendixUnits (dateMillis : String → Int)
    (docs : List ProcessedDocument) : List WordAppendixUnit :=
  (sortedDocs dateMillis docs).enum.map fun p =>
    ⟨p.1 + 1, p.2.type, p.2.file.name, p.2.summary,
     p.2.file.type.startsWith "image/"⟩

/-- The document fields an index row displays besides its date cell. -/
def rowKey (r : IndexRow) : Nat × String × String := (r.ref, r.typeCell, r.summaryCell)

/-- The document fields a PDF appendix unit displays besides date and file name. -/
def pdfUnitKey (u : PdfAppendixUnit) : Nat × String × String :=
  (u.ref, u.typeLabel, u.summaryText)

/-- The document fields a Word appendix unit displays besides its file name. -/
def wordUnitKey (u : WordAppendixUnit) : Nat × String × String :=
  (u.ref, u.typeLabel, u.summaryText)

/-! ### Concrete sample data for closed evaluations -/

/-- A sample image file payload. -/
def sampleFile : FileV := ⟨"scan1.jpg", "image/jpeg", "bytes1"⟩

/-- A dated lab document. -/
def docLab2020 : ProcessedDocument :=
  ⟨"idA", sampleFile, "blob:h1", some "2020-01-01", "LAB", "elevated glucose", false, none⟩

/-- An undated note document. -/
def docUndated : ProcessedDocument :=
  ⟨"idB", sampleFile, "blob:h2", none, "NOTE", "follow-up note", false, none⟩

/-- Two documents sharing the id `"a"` (distinct summaries). -/
def docDupId1 : ProcessedDocument :=
  ⟨"a", sampleFile, "blob:h3", some "2021-02-02", "LAB", "first record", false, none⟩

/-- Second document with id `"a"`. -/
def docDupId2 : ProcessedDocument :=
  ⟨"a", sampleFile, "blob:h4", some "2021-03-03", "NOTE", "second record", false, none⟩

/-- A document with id `"b"` (sorts after id `"a"` in key order). -/
def docIdB : ProcessedDocument :=
  ⟨"b", sampleFile, "blob:h5", some "2021-04-04", "OTHER", "third record", false, none⟩

/-- Sample classification service for the 12-file scenario: the first call
answers 10 entries, every later call answers 2. -/
def svcTwoBatches : Nat → Except String (List RawItem) := fun j =>
  .ok (List.replicate (if j = 0 then 10 else 2)
    ⟨some "2020-01-01", "LAB", "finding", false⟩)

/-! ### Theorems -/

/-- `strLeb` is reflexive. -/
theorem strLeb_refl : ∀ x : List Char, strLeb x x = true
  | [] => rfl
  | a :: as => by simp [strLeb, lt_irrefl, strLeb_refl as]

/-- `strLeb` on a cons pair, unfolded to head comparison plus recursion. -/
theorem strLeb_cons_iff (a b : Char) (as bs : List Char) :
    strLeb (a :: as) (b :: bs) = true ↔ a < b ∨ (a = b ∧ strLeb as bs = true) := by
  rcases lt_trichotomy a b with h | h | h
  · simp [strLeb, h]
  · subst h
    simp [strLeb, lt_irrefl]
  · simp [strLeb, h, lt_asymm h, ne_of_gt h]

/-- `strLeb` is total. -/
theorem strLeb_total : ∀ x y : List Char, strLeb x y = true ∨ strLeb y x = true
  | [], _ => Or.inl rfl
  | _ :: _, [] => Or.inr rfl
  | a :: as, b :: bs => by
    rcases lt_trichotomy a b with h | h | h
    · exact Or.inl ((strLeb_cons_iff ..).mpr (Or.inl h))
    · subst h
      rcases strLeb_total as bs with ih | ih
      · exact Or.inl ((strLeb_cons_iff ..).mpr (Or.inr ⟨rfl, ih⟩))
      · exact Or.inr ((strLeb_cons_iff ..).mpr (Or.inr ⟨rfl, ih⟩))
    · exact Or.inr ((strLeb_cons_iff ..).mpr (Or.inl h))

/-- `strLeb` is transitive. -/
theorem strLeb_trans : ∀ x y z : List Char,
    strLeb x y = true → strLeb y z = true → strLeb x z = true
  | [], _, _ => fun _ _ => rfl
  | _ :: _, [], _ => fun h _ => by simp [strLeb] at h
  | _ :: _, _ :: _, [] => fun _ h => by simp [strLeb] at h
  | a :: as, b :: bs, c :: cs => fun h1 h2 => by
    rcases (strLeb_cons_iff ..).mp h1 with hab | ⟨hab, h1'⟩ <;>
      rcases (strLeb_cons_iff ..).mp h2 with hbc | ⟨hbc, h2'⟩
    · exact (strLeb_cons_iff ..).mpr (Or.inl (lt_trans hab hbc))
    · exact (strLeb_cons_iff ..).mpr (Or.inl (hbc ▸ hab))
    · exact (strLeb_cons_iff ..).mpr (Or.inl (hab ▸ hbc))
    · exact (strLeb_cons_iff ..).mpr
        (Or.inr ⟨hab.trans hbc, strLeb_trans as bs cs h1' h2'⟩)

/-- Only the empty character list compares `≤ []`. -/
theorem strLeb_nil_right : ∀ {x : List Char}, strLeb x [] = true → x = []
  | [], _ => rfl
  | _ :: _, h => by simp [strLeb] at h

/-- Only the empty string compares `≤ ""` lexicographically. -/
theorem lexLe_empty_right {s : String} (h : lexLe s "" = true) : s = "" := by
  have hd : s.data = [] := strLeb_nil_right (by simpa [lexLe] using h)
  cases s
  exact congrArg String.mk hd

/-- C2: for every document list, both export encodings (fixed-page PDF and
flow Word document) render index rows and appendix units in exactly the
chronological order of `sortedDocs`, the one list computed in the component
body and reused by both handlers; index-row count equals appendix-unit
count equals input document count, in identical order, in both encodings:
all four rendered sequences project to the same `(sequence number, category,
summary)` sequence, which is exactly the enumeration of `sortedDocs`. -/
theorem export_encodings_share_order (dateMillis : String → Int)
    (fmtDate : String → String) (docs : List ProcessedDocument) :
    (pdfIndexRows dateMillis fmtDate docs).length = docs.length ∧
    (pdfAppendixUnits dateMillis docs).length = docs.length ∧
    (wordIndexRows dateMillis docs).length = docs.length ∧
    (wordAppendixUnits dateMillis docs).length = docs.length ∧
    (pdfIndexRows dateMillis fmtDate docs).map rowKey =
      (sortedDocs dateMillis docs).enum.map (fun p => (p.1 + 1, p.2.type, p.2.summary)) ∧
    (pdfAppendixUnits dateMillis docs).map pdfUnitKey =
      (sortedDocs dateMillis docs).enum.map (fun p => (p.1 + 1, p.2.type, p.2.summary)) ∧
    (wordIndexRows dateMillis docs).map rowKey =
      (sortedDocs dateMillis docs).enum.map (fun p => (p.1 + 1, p.2.type, p.2.summary)) ∧
    (wordAppendixUnits dateMillis docs).map wordUnitKey =
      (sortedDocs dateMillis docs).enum.map (fun p => (p.1 + 1, p.2.type, p.2.summary)) := by
  refine ⟨?_, ?_, ?_, ?_, ?_, ?_, ?_, ?_⟩ <;>
    simp [pdfIndexRows, pdfAppendixUnits, wordIndexRows, wordAppendixUnits,
      rowKey, pdfUnitKey, wordUnitKey, List.map_map, Function.comp,
      sortedDocs, List.length_insertionSort]

/-- C4: a document is in the synthesis input (active subset) iff it is in
the input list and its duplicate flag is false or its category is
`IMAGING`. -/
theorem active_subset_iff (docs : List ProcessedDocument) (d : ProcessedDocument) :
    d ∈ activeDocs docs ↔ d ∈ docs ∧ (d.isDuplicate = false ∨ d.type = "IMAGING") := by
  unfold activeDocs
  rw [List.mem_insertionSort, List.mem_filter]
  simp [isActive]

/-- C6 counterexample: the synthesis service call succeeds with an absent
response text; `generateMedicalReport` then parses the defaulted `"\x7b\x7d"`
and returns a report object with all three narrative fields missing instead
of surfacing an error — refuting the claim that it never returns a report
with missing narrative fields in place of an error. -/
theorem generateMedicalReport_returns_empty_report :
    generateMedicalReport [] (fun _ => .ok none) jsonParseReport =
      .ok ⟨none, none, none⟩ := by
  rfl

/-- C6 amended: a synthesis service-call failure or a JSON parse failure is
propagated by `generateMedicalReport` as an error (no report object is
returned in those cases); but the parsed object is returned without any
validation of the three narrative fields, whatever fields it carries. -/
theorem generateMedicalReport_error_propagation (docs : List ProcessedDocument)
    (svc : String → Except String (Option String))
    (parse : String → Except String RawReport) :
    (∀ e, svc (synthesisPrompt docs) = .error e →
      generateMedicalReport docs svc parse = .error e) ∧
    (∀ t e, svc (synthesisPrompt docs) = .ok t →
      parse (jsOrStr t emptyJsonObject) = .error e →
      generateMedicalReport docs svc parse = .error e) ∧
    (∀ t r, svc (synthesisPrompt docs) = .ok t →
      parse (jsOrStr t emptyJsonObject) = .ok r →
      generateMedicalReport docs svc parse = .ok r) := by
  unfold generateMedicalReport
  refine ⟨fun e he => by rw [he], fun t e ht hp => ?_, fun t r ht hp => ?_⟩ <;>
    rw [ht] <;> exact hp

/-- C6 amended witness: a concrete failed service call propagates. -/
theorem generateMedicalReport_error_propagation_witness :
    generateMedicalReport [] (fun _ => .error "network") jsonParseReport =
      .error "network" :=
  (generateMedicalReport_error_propagation [] (fun _ => .error "network")
    jsonParseReport).1 "network" rfl

/-- C7 counterexample: a 1200×1200 image is not downscaled at all (the
`width > height` test fails and 1200 ≤ 1400), so the output width is 1200,
refuting the claimed bound width ≤ 1000. -/
theorem compressImage_width_bound_fails :
    compressImageDims 1200 1200 = (1200, 1200) ∧
      ¬ (compressImageDims 1200 1200).1 ≤ 1000 := by
  norm_num [compressImageDims]

/-- C7 amended: the downscale preserves the aspect ratio exactly
(`w' * h = h' * w`) and bounds both output sides by 1400; the claimed
width ≤ 1000 holds whenever the image is strictly landscape (`h < w`, in
which case both sides are ≤ 1000), but not in general: a square or portrait
image is only bounded by height ≤ 1400 and width ≤ 1400. -/
theorem compressImage_dims_spec (w h : ℚ) (hw : 0 < w) (hh : 0 < h) :
    (compressImageDims w h).1 * h = (compressImageDims w h).2 * w ∧
    (compressImageDims w h).1 ≤ 1400 ∧
    (compressImageDims w h).2 ≤ 1400 ∧
    (h < w → (compressImageDims w h).1 ≤ 1000 ∧ (compressImageDims w h).2 ≤ 1000) := by
  unfold compressImageDims
  split_ifs with h1 h2 h3
  · have key : h * (1000 / w) ≤ 1000 := by
      rw [← mul_div_assoc, div_le_iff₀ hw]
      nlinarith
    refine ⟨?_, by norm_num, le_trans key (by norm_num), fun _ => ⟨le_refl _, key⟩⟩
    field_simp
    ring
  · push_neg at h2
    exact ⟨mul_comm w h, le_trans h2 (by norm_num), by linarith, fun _ => ⟨h2, by linarith⟩⟩
  · push_neg at h1
    have key : w * (1400 / h) ≤ 1400 := by
      rw [← mul_div_assoc, div_le_iff₀ hh]
      nlinarith
    exact ⟨by field_simp; ring, key, le_refl _, fun hc => absurd hc (not_lt.mpr h1)⟩
  · push_neg at h1 h3
    exact ⟨mul_comm w h, by linarith, h3, fun hc => absurd hc (not_lt.mpr h1)⟩

/-- C7 amended witness: concrete evaluation at a 2800×2800 square image,
which the algorithm scales to 1400×1400. -/
theorem compressImage_dims_spec_witness :
    (0:ℚ) < 2800 ∧
    ((compressImageDims 2800 2800).1 * 2800 = (compressImageDims 2800 2800).2 * 2800 ∧
      (compressImageDims 2800 2800).1 ≤ 1400 ∧
      (compressImageDims 2800 2800).2 ≤ 1400 ∧
      ((2800:ℚ) < 2800 → (compressImageDims 2800 2800).1 ≤ 1000 ∧
        (compressImageDims 2800 2800).2 ≤ 1000)) :=
  ⟨by norm_num, compressImage_dims_spec 2800 2800 (by norm_num) (by norm_num)⟩

/-- Filtering for one date key commutes with `orderedInsert` under the
synthesis ordering: every element the insertion passes over has a strictly
smaller key than the inserted element. -/
theorem filter_orderedInsert_synth (s : String) (a : ProcessedDocument)
    (l : List ProcessedDocument) :
    (List.orderedInsert synthLe a l).filter (fun d => synthDateKey d == s) =
      if synthDateKey a = s then a :: l.filter (fun d => synthDateKey d == s)
      else l.filter (fun d => synthDateKey d == s) := by
  induction l with
  | nil =>
    by_cases has : synthDateKey a = s <;>
      simp [List.orderedInsert, List.filter_cons, has]
  | cons b t ih =>
    rcases Decidable.em (synthLe a b) with hab | hab
    · rw [List.orderedInsert, if_pos hab]
      by_cases has : synthDateKey a = s <;>
        by_cases hbs : synthDateKey b = s <;>
          simp [List.filter_cons, has, hbs]
    · rw [List.orderedInsert, if_neg hab]
      by_cases has : synthDateKey a = s
      · have hbs : ¬ synthDateKey b = s := by
          intro hbs
          exact hab (show synthLe a b by
            rw [synthLe, has, hbs, lexLe]
            exact strLeb_refl _)
        simp [List.filter_cons, hbs, ih, has]
      · by_cases hbs : synthDateKey b = s <;>
          simp [List.filter_cons, hbs, ih, has]

/-- Stability of the synthesis sort, per date key: sorting does not disturb
the relative order of documents sharing one key. -/
theorem filter_insertionSort_synth (s : String) (l : List ProcessedDocument) :
    (List.insertionSort synthLe l).filter (fun d => synthDateKey d == s) =
      l.filter (fun d => synthDateKey d == s) := by
  induction l with
  | nil => rfl
  | cons a t ih =>
    rw [List.insertionSort, filter_orderedInsert_synth, ih]
    by_cases has : synthDateKey a = s <;> simp [List.filter_cons, has]

/-- C5: the synthesis-input ordering sorts the active documents by ascending
lexical comparison of their date strings with an absent date compared as the
empty string; consequently (whenever no document carries the degenerate date
value `some ""`) every undated document sorts before every dated one; and
the sort is a stable tie-break: for every date key, the documents with that
key keep their relative input order. -/
theorem synthesis_ordering_spec (docs : List ProcessedDocument)
    (hdates : ∀ d ∈ docs, d.date ≠ some "") :
    (activeDocs docs).Pairwise
      (fun a b => lexLe (synthDateKey a) (synthDateKey b) = true) ∧
    (activeDocs docs).Pairwise (fun a b => b.date = none → a.date = none) ∧
    ∀ s, (activeDocs docs).filter (fun d => synthDateKey d == s) =
      (docs.filter isActive).filter (fun d => synthDateKey d == s) := by
  haveI : IsTotal ProcessedDocument synthLe :=
    ⟨fun a b => strLeb_total (synthDateKey a).data (synthDateKey b).data⟩
  haveI : IsTrans ProcessedDocument synthLe :=
    ⟨fun a b c => strLeb_trans (synthDateKey a).data (synthDateKey b).data
      (synthDateKey c).data⟩
  have hsorted : (activeDocs docs).Pairwise
      (fun a b => lexLe (synthDateKey a) (synthDateKey b) = true) :=
    List.sorted_insertionSort synthLe (docs.filter isActive)
  refine ⟨hsorted, ?_, fun s => filter_insertionSort_synth s (docs.filter isActive)⟩
  refine hsorted.imp_of_mem ?_
  intro a b ha hb hle hbnone
  have ha' : a ∈ docs := by
    rw [activeDocs, List.mem_insertionSort, List.mem_filter] at ha
    exact ha.1
  have hbkey : synthDateKey b = "" := by simp [synthDateKey, jsOrStr, hbnone]
  have hakey : synthDateKey a = "" := lexLe_empty_right (hbkey ▸ hle)
  cases hda : a.date with
  | none => rfl
  | some s =>
    have hs : s ≠ "" := by
      intro hc
      exact hdates a ha' (hc ▸ hda)
    rw [synthDateKey, hda] at hakey
    simp only [jsOrStr, if_neg hs] at hakey
    exact absurd hakey hs

/-- C5 witness: a two-document list — one dated `"2020-01-01"`, one undated —
satisfies the hypotheses, so the sortedness, undated-first, and stability
conclusions hold for it. -/
theorem synthesis_ordering_spec_witness :
    (∀ d ∈ [docLab2020, docUndated], d.date ≠ some "") ∧
    ((activeDocs [docLab2020, docUndated]).Pairwise
        (fun a b => lexLe (synthDateKey a) (synthDateKey b) = true) ∧
      (activeDocs [docLab2020, docUndated]).Pairwise
        (fun a b => b.date = none → a.date = none) ∧
      ∀ s, (activeDocs [docLab2020, docUndated]).filter (fun d => synthDateKey d == s) =
        ([docLab2020, docUndated].filter isActive).filter
          (fun d => synthDateKey d == s)) :=
  ⟨by decide, synthesis_ordering_spec [docLab2020, docUndated] (by decide)⟩

/-- `List.intercalate` on a cons, in flattened form. -/
theorem intercalate_cons_eq {α : Type} (sep x : List α) (xs : List (List α)) :
    List.intercalate sep (x :: xs) = x ++ (xs.map (fun y => sep ++ y)).flatten := by
  induction xs generalizing x with
  | nil => simp [List.intercalate]
  | cons y t ih =>
    rw [List.intercalate, List.intersperse_cons_cons]
    have hy := ih y
    rw [List.intercalate] at hy
    simp only [List.flatten_cons, List.map_cons]
    rw [hy]
    simp [List.append_assoc]

/-- Character data of `String.intercalate.go`. -/
theorem intercalate_go_data (s : String) :
    ∀ (as : List String) (acc : String),
      (String.intercalate.go acc s as).data =
        acc.data ++ (as.map (fun a => s.data ++ a.data)).flatten
  | [], acc => by
    rw [String.intercalate.go]
    simp
  | a :: as, acc => by
    rw [String.intercalate.go, intercalate_go_data s as]
    simp [List.append_assoc]

/-- `String.intercalate` and `List.intercalate` agree on character data. -/
theorem data_intercalate (s : String) (l : List String) :
    (String.intercalate s l).data = List.intercalate s.data (l.map String.data) := by
  cases l with
  | nil => rfl
  | cons a as =>
    rw [String.intercalate, intercalate_go_data, List.map_cons, intercalate_cons_eq,
      List.map_map]
    rfl

/-- C8: each active document is serialized as exactly one pipe-separated
`Date: ... | Type: ... | Finding: ...` line — when no field contains a
newline, splitting the request's timeline block at newlines recovers exactly
the serialized lines of the active documents, one per document, in order —
an absent date is rendered as the sentinel `Unknown`, and the lines are
joined by newlines into the single request prompt. -/
theorem timeline_serialization_spec (docs : List ProcessedDocument)
    (hne : activeDocs docs ≠ [])
    (hclean : ∀ d ∈ activeDocs docs, ('\n') ∉ d.type.data ∧ ('\n') ∉ d.summary.data ∧
      ∀ s, d.date = some s → ('\n') ∉ s.data) :
    ((timelineText docs).data.splitOn '\n') =
      (activeDocs docs).map (fun d => (timelineLine d).data) ∧
    (∀ d ∈ activeDocs docs,
      (d.date = none → timelineLine d =
        "Date: " ++ "Unknown" ++ " | Type: " ++ d.type ++ " | Finding: " ++ d.summary) ∧
      (∀ s, d.date = some s → s ≠ "" → timelineLine d =
        "Date: " ++ s ++ " | Type: " ++ d.type ++ " | Finding: " ++ d.summary)) ∧
    synthesisPrompt docs =
      "Synthesize this medical timeline:\n" ++ timelineText docs ++
        "\n\nReturn JSON with: history, summary, prognosis." := by
  refine ⟨?_, ?_, rfl⟩
  · rw [timelineText, data_intercalate, show ("\n").data = ['\n'] from rfl,
      List.map_map]
    refine List.splitOn_intercalate _ '\n' ?_ (by simpa using hne)
    intro l hl
    rw [List.mem_map] at hl
    obtain ⟨d, hd, rfl⟩ := hl
    obtain ⟨ht, hs, hdd⟩ := hclean d hd
    have hdate : ('\n') ∉ (jsOrStr d.date "Unknown").data := by
      cases hopt : d.date with
      | none => simp [jsOrStr]
      | some v =>
        by_cases hve : v = ""
        · subst hve
          simp [jsOrStr]
        · simp only [jsOrStr, if_neg hve]
          exact hdd v hopt
    intro hmem
    simp only [Function.comp, timelineLine, String.data_append, List.mem_append] at hmem
    rcases hmem with ((((h1 | h2) | h3) | h4) | h5) | h6
    · exact absurd h1 (by decide)
    · exact hdate h2
    · exact absurd h3 (by decide)
    · exact ht h4
    · exact absurd h5 (by decide)
    · exact hs h6
  · intro d hd
    refine ⟨fun h => ?_, fun s h hs => ?_⟩
    · simp [timelineLine, jsOrStr, h]
    · simp [timelineLine, jsOrStr, h, hs]

/-- C8 witness: the two-document sample list (a dated lab record and an
undated note, both active, newline-free fields) satisfies the hypotheses. -/
theorem timeline_serialization_spec_witness :
    (activeDocs [docLab2020, docUndated] ≠ [] ∧
      ∀ d ∈ activeDocs [docLab2020, docUndated],
        ('\n') ∉ d.type.data ∧ ('\n') ∉ d.summary.data ∧
          ∀ s, d.date = some s → ('\n') ∉ s.data) ∧
    (((timelineText [docLab2020, docUndated]).data.splitOn '\n') =
        (activeDocs [docLab2020, docUndated]).map (fun d => (timelineLine d).data) ∧
      (∀ d ∈ activeDocs [docLab2020, docUndated],
        (d.date = none → timelineLine d =
          "Date: " ++ "Unknown" ++ " | Type: " ++ d.type ++ " | Finding: " ++ d.summary) ∧
        (∀ s, d.date = some s → s ≠ "" → timelineLine d =
          "Date: " ++ s ++ " | Type: " ++ d.type ++ " | Finding: " ++ d.summary)) ∧
      synthesisPrompt [docLab2020, docUndated] =
        "Synthesize this medical timeline:\n" ++ timelineText [docLab2020, docUndated] ++
          "\n\nReturn JSON with: history, summary, prognosis.") :=
  ⟨⟨by decide, by decide⟩,
    timeline_serialization_spec [docLab2020, docUndated] (by decide) (by decide)⟩

/-- A `put` whose key is absent from the store appends. -/
theorem idbPut_fresh (store : List StoredDocument) (d : StoredDocument)
    (h : ∀ e ∈ store, e.id ≠ d.id) : idbPut store d = store ++ [d] := by
  unfold idbPut
  rw [if_neg]
  intro hc
  rw [List.any_eq_true] at hc
  obtain ⟨e, he, heq⟩ := hc
  exact h e he (by simpa using heq)

/-- Folding `put` over documents with fresh, pairwise-distinct ids appends
their stripped forms in order. -/
theorem saveDocuments_foldl_eq (docs : List ProcessedDocument) :
    ∀ store : List StoredDocument,
      (∀ d ∈ docs, ∀ e ∈ store, e.id ≠ d.id) →
      (docs.map (fun d => d.id)).Nodup →
      docs.foldl (fun s d => idbPut s (stripPreviewUrl d)) store =
        store ++ docs.map stripPreviewUrl := by
  induction docs with
  | nil => intro store _ _; simp
  | cons d rest ih =>
    intro store hdisj hnd
    rw [List.foldl_cons,
      idbPut_fresh store (stripPreviewUrl d)
        (fun e he => hdisj d (List.mem_cons_self d rest) e he)]
    rw [List.map_cons, List.nodup_cons] at hnd
    rw [ih (store ++ [stripPreviewUrl d]) ?_ hnd.2]
    · simp
    · intro d' hd' e he
      rcases List.mem_append.mp he with he | he
      · exact hdisj d' (List.mem_cons_of_mem d hd') e he
      · rcases List.mem_singleton.mp he with rfl
        show d.id ≠ d'.id
        intro hc
        exact hnd.1 (hc ▸ List.mem_map_of_mem (fun d => d.id) hd')

/-- With pairwise-distinct ids, `saveDocumentsToStorage` persists exactly
the stripped documents. -/
theorem saveDocumentsToStorage_eq (docs : List ProcessedDocument)
    (hnd : (docs.map (fun d => d.id)).Nodup) :
    saveDocumentsToStorage docs = docs.map stripPreviewUrl := by
  have h := saveDocuments_foldl_eq docs [] (by simp) hnd
  simpa [saveDocumentsToStorage] using h

/-- Reattaching a handle then stripping it recovers the stored document. -/
theorem stripPreviewUrl_withPreviewUrl (sd : StoredDocument) (url : String) :
    stripPreviewUrl (withPreviewUrl sd url) = sd := rfl

/-- C3 counterexample: `put-all` then `load-all` does not return the input
documents for every list. With two documents sharing one id, the second
`put` overwrites the first (IndexedDB keyPath semantics), so only one
document comes back; and even with distinct ids, `getAll` returns key order,
not input order, so the non-handle fields do not match positionally. -/
theorem load_after_save_fails :
    ((loadDocumentsFromStorage (saveDocumentsToStorage [docDupId1, docDupId2])
        (fun _ => "blob:new") 0).1).length = 1 ∧
    ([docDupId1, docDupId2] : List ProcessedDocument).length = 2 ∧
    ((loadDocumentsFromStorage (saveDocumentsToStorage [docIdB, docDupId1])
        (fun _ => "blob:new") 0).1).map stripPreviewUrl ≠
      [docIdB, docDupId1].map stripPreviewUrl := by
  decide

/-- C3 amended: for a document list whose ids are pairwise distinct,
`load-all` after `put-all(docs)` returns — up to order (the store's
ascending-key order) — exactly the input documents with every field other
than `previewUrl` unchanged; every returned display handle is freshly drawn
from the current handle supply (counter ≥ `ctr`), so a handle from a prior
lifetime (a counter below `ctr`) is never reused. -/
theorem load_after_save_spec (docs : List ProcessedDocument) (newUrl : Nat → String)
    (ctr : Nat) (hinj : ∀ m n : Nat, newUrl m = newUrl n → m = n)
    (hnd : (docs.map (fun d => d.id)).Nodup) :
    ((loadDocumentsFromStorage (saveDocumentsToStorage docs) newUrl ctr).1.map
        stripPreviewUrl).Perm (docs.map stripPreviewUrl) ∧
    (∀ d ∈ (loadDocumentsFromStorage (saveDocumentsToStorage docs) newUrl ctr).1,
      ∃ k, ctr ≤ k ∧ d.previewUrl = newUrl k) ∧
    (∀ j < ctr, ∀ d ∈ (loadDocumentsFromStorage (saveDocumentsToStorage docs) newUrl ctr).1,
      d.previewUrl ≠ newUrl j) := by
  refine ⟨?_, ?_, ?_⟩
  · have hmap : ((loadDocumentsFromStorage (saveDocumentsToStorage docs) newUrl ctr).1.map
        stripPreviewUrl) = idbGetAll (saveDocumentsToStorage docs) := by
      rw [loadDocumentsFromStorage]
      rw [List.map_map]
      exact List.enum_map_snd _
    rw [hmap, saveDocumentsToStorage_eq docs hnd]
    exact List.perm_insertionSort _ _
  · intro d hd
    rw [loadDocumentsFromStorage, List.mem_map] at hd
    obtain ⟨p, hp, rfl⟩ := hd
    exact ⟨ctr + p.1, Nat.le_add_right ctr p.1, rfl⟩
  · intro j hj d hd hc
    rw [loadDocumentsFromStorage, List.mem_map] at hd
    obtain ⟨p, hp, rfl⟩ := hd
    have : ctr + p.1 = j := hinj _ _ hc
    omega

/-- C3 amended witness: two distinct-id documents, an injective handle
supply and the handle counter at 1. -/
theorem load_after_save_spec_witness :
    (∀ m n : Nat,
      String.mk (List.replicate m 'u') = String.mk (List.replicate n 'u') → m = n) ∧
    (([docLab2020, docUndated].map (fun d => d.id)).Nodup) ∧
    (((loadDocumentsFromStorage (saveDocumentsToStorage [docLab2020, docUndated])
          (fun k => String.mk (List.replicate k 'u')) 1).1.map stripPreviewUrl).Perm
        ([docLab2020, docUndated].map stripPreviewUrl) ∧
      (∀ d ∈ (loadDocumentsFromStorage (saveDocumentsToStorage [docLab2020, docUndated])
          (fun k => String.mk (List.replicate k 'u')) 1).1,
        ∃ k, 1 ≤ k ∧ d.previewUrl = String.mk (List.replicate k 'u')) ∧
      (∀ j < 1, ∀ d ∈ (loadDocumentsFromStorage (saveDocumentsToStorage
          [docLab2020, docUndated]) (fun k => String.mk (List.replicate k 'u')) 1).1,
        d.previewUrl ≠ String.mk (List.replicate j 'u'))) := by
  have hinj : ∀ m n : Nat,
      String.mk (List.replicate m 'u') = String.mk (List.replicate n 'u') → m = n := by
    intro m n h
    have hlen := congrArg (fun t : String => t.data.length) h
    simpa using hlen
  exact ⟨hinj, by decide,
    load_after_save_spec [docLab2020, docUndated]
      (fun k => String.mk (List.replicate k 'u')) 1 hinj (by decide)⟩

/-- `mkRecords` yields one record per entry. -/
theorem mkRecords_length (idGen : Nat → String) :
    ∀ (start : Nat) (its : List RawItem),
      (mkRecords idGen start its).length = its.length
  | _, [] => rfl
  | start, _ :: its => by
    simp [mkRecords, mkRecords_length idGen (start + 1) its]

/-- `mkRecords` over an append splits, shifting the id counter. -/
theorem mkRecords_append (idGen : Nat → String) :
    ∀ (start : Nat) (xs ys : List RawItem),
      mkRecords idGen start (xs ++ ys) =
        mkRecords idGen start xs ++ mkRecords idGen (start + xs.length) ys
  | _, [], _ => by simp [mkRecords]
  | start, x :: xs, ys => by
    have h := mkRecords_append idGen (start + 1) xs ys
    have harith : start + 1 + xs.length = start + (xs.length + 1) := by omega
    simp [mkRecords, h, harith]

/-- One batch, then the batches of the remainder. -/
theorem batchesOf_pos_eq (n : Nat) (h : 1 ≤ n) :
    batchesOf n = batchesOf (n - BATCH_SIZE) + 1 := by
  simp only [batchesOf, BATCH_SIZE]
  omega

/-- If every batch's response is a success whose entry count equals the
batch's cardinality, the loop succeeds, returning exactly the concatenated
response entries as records (so one record per input file). -/
theorem analyzeGo_records_ok (svc : Nat → Except String (List RawItem))
    (idGen : Nat → String) (total : Nat) :
    ∀ (fuel : Nat) (remaining : List String) (i : Nat) (st : AnalyzeState),
      remaining.length ≤ fuel →
      (∀ k, k < batchesOf remaining.length →
        svc (st.calls + k) = .ok (okItems (svc (st.calls + k))) ∧
        (okItems (svc (st.calls + k))).length =
          min BATCH_SIZE (remaining.length - BATCH_SIZE * k)) →
      (analyzeGo svc idGen total fuel i remaining st).records =
        .ok (st.results ++ mkRecords idGen st.idCtr
          (collectEntries svc st.calls (batchesOf remaining.length))) ∧
      (collectEntries svc st.calls (batchesOf remaining.length)).length =
        remaining.length := by
  intro fuel
  induction fuel with
  | zero =>
    intro remaining i st hf _
    have hrem : remaining = [] := List.length_eq_zero.mp (Nat.le_zero.mp hf)
    subst hrem
    simp [analyzeGo, batchesOf, BATCH_SIZE, collectEntries, mkRecords]
  | succ fuel ih =>
    intro remaining i st hf hok
    cases remaining with
    | nil => simp [analyzeGo, batchesOf, BATCH_SIZE, collectEntries, mkRecords]
    | cons f fs =>
      have hb := batchesOf_pos_eq (f :: fs).length (by simp)
      obtain ⟨hsvc0, hlen0⟩ := hok 0 (by omega)
      rw [Nat.add_zero] at hsvc0 hlen0
      rw [hb, collectEntries, mkRecords_append]
      have hstep : analyzeGo svc idGen total (fuel + 1) i (f :: fs) st =
          analyzeGo svc idGen total fuel (i + BATCH_SIZE) ((f :: fs).drop BATCH_SIZE)
            ⟨st.results ++ mkRecords idGen st.idCtr (okItems (svc st.calls)),
             st.progress ++ [(min (i + BATCH_SIZE) total, total)],
             st.calls + 1,
             st.idCtr + (okItems (svc st.calls)).length⟩ := by
        conv_lhs => rw [analyzeGo]
        rw [hsvc0]
        rfl
      have hdl : ((f :: fs).drop BATCH_SIZE).length = (f :: fs).length - BATCH_SIZE :=
        List.length_drop BATCH_SIZE (f :: fs)
      have hok' : ∀ k, k < batchesOf ((f :: fs).drop BATCH_SIZE).length →
          svc (st.calls + 1 + k) = .ok (okItems (svc (st.calls + 1 + k))) ∧
          (okItems (svc (st.calls + 1 + k))).length =
            min BATCH_SIZE (((f :: fs).drop BATCH_SIZE).length - BATCH_SIZE * k) := by
        intro k hk
        rw [hdl] at hk
        have h2 := hok (k + 1) (by omega)
        have e1 : st.calls + (k + 1) = st.calls + 1 + k := by omega
        have e2 : min BATCH_SIZE ((f :: fs).length - BATCH_SIZE * (k + 1)) =
            min BATCH_SIZE (((f :: fs).drop BATCH_SIZE).length - BATCH_SIZE * k) := by
          rw [hdl]
          simp only [BATCH_SIZE, List.length_cons]
          omega
        rw [e1, e2] at h2
        exact h2
      have hih := ih ((f :: fs).drop BATCH_SIZE) (i + BATCH_SIZE)
        ⟨st.results ++ mkRecords idGen st.idCtr (okItems (svc st.calls)),
         st.progress ++ [(min (i + BATCH_SIZE) total, total)],
         st.calls + 1,
         st.idCtr + (okItems (svc st.calls)).length⟩
        (by rw [hdl]; simp only [BATCH_SIZE, List.length_cons] at hf ⊢; omega) hok'
      rw [hdl] at hih
      constructor
      · rw [hstep, hih.1]
        simp [List.append_assoc]
      · simp only [List.length_append, hlen0, hih.2]
        simp only [BATCH_SIZE, List.length_cons] at *
        omega

/-- C1 counterexample: one input file, and a service response that parses to
an empty JSON array (e.g. an empty `response.text`, defaulted to `"[]"`).
The orchestrator runs the batch to completion and returns zero records with
no error: a response whose cardinality (0) differs from the batch's (1)
yields a silently truncated result instead of a batch failure. -/
theorem classification_cardinality_unchecked :
    (analyzeDocumentsMetadata ["doc1"] (fun _ => .ok []) (fun _ => "id0")).records =
      .ok [] ∧
    (analyzeDocumentsMetadata ["doc1"] (fun _ => .ok []) (fun _ => "id0")).calls = 1 ∧
    (["doc1"] : List String).length = 1 := by
  decide

/-- C1 amended: the orchestrator performs no cardinality check — each batch
appends exactly one record per parsed response entry, in response order
(batches in input order), and only a thrown service/parse failure fails the
batch. Consequently, when every batch's response cardinality equals the
batch's cardinality, the output has exactly one classification record per
input file, in input order: the records are precisely the concatenated
response entries (normalized, with fresh ids), and their count equals the
file count. -/
theorem classification_records_spec (files : List String)
    (svc : Nat → Except String (List RawItem)) (idGen : Nat → String)
    (hok : ∀ k, k < batchesOf files.length →
      svc k = .ok (okItems (svc k)) ∧
      (okItems (svc k)).length = min BATCH_SIZE (files.length - BATCH_SIZE * k)) :
    (analyzeDocumentsMetadata files svc idGen).records =
      .ok (mkRecords idGen 0 (collectEntries svc 0 (batchesOf files.length))) ∧
    (collectEntries svc 0 (batchesOf files.length)).length = files.length ∧
    ∀ rs, (analyzeDocumentsMetadata files svc idGen).records = .ok rs →
      rs.length = files.length := by
  have h := analyzeGo_records_ok svc idGen files.length files.length files 0
    ⟨[], [], 0, 0⟩ (le_refl _) (by simpa using hok)
  rw [analyzeDocumentsMetadata]
  refine ⟨by simpa using h.1, h.2, ?_⟩
  intro rs hrs
  have := h.1
  rw [hrs] at this
  simp only [List.nil_append] at this
  have hrseq : rs = mkRecords idGen 0 (collectEntries svc 0 (batchesOf files.length)) := by
    exact Except.ok.inj this
  rw [hrseq, mkRecords_length, h.2]

/-- C1 amended witness: 12 files, a first batch answering 10 entries and a
second answering 2 — the cardinality hypothesis holds and 12 records come
back. -/
theorem classification_records_spec_witness :
    (∀ k, k < batchesOf (List.replicate 12 "f").length →
      svcTwoBatches k = .ok (okItems (svcTwoBatches k)) ∧
      (okItems (svcTwoBatches k)).length =
        min BATCH_SIZE ((List.replicate 12 "f").length - BATCH_SIZE * k)) ∧
    ((analyzeDocumentsMetadata (List.replicate 12 "f") svcTwoBatches
        (fun _ => "id")).records =
      .ok (mkRecords (fun _ => "id") 0 (collectEntries svcTwoBatches 0
        (batchesOf (List.replicate 12 "f").length))) ∧
      (collectEntries svcTwoBatches 0
        (batchesOf (List.replicate 12 "f").length)).length =
        (List.replicate 12 "f").length ∧
      ∀ rs, (analyzeDocumentsMetadata (List.replicate 12 "f") svcTwoBatches
          (fun _ => "id")).records = .ok rs →
        rs.length = (List.replicate 12 "f").length) :=
  ⟨by decide, classification_records_spec (List.replicate 12 "f") svcTwoBatches
    (fun _ => "id") (by decide)⟩

/-- After a successful batch, the loop's progress entries keep strictly
increasing cumulative counts. -/
theorem analyzeGo_progress_mono (svc : Nat → Except String (List RawItem))
    (idGen : Nat → String) (total : Nat) :
    ∀ (fuel : Nat) (remaining : List String) (i : Nat) (st : AnalyzeState),
      (total = i + remaining.length ∨ remaining = []) →
      st.progress.Chain' (fun p q => p.1 < q.1) →
      (∀ p ∈ st.progress, p.1 ≤ i) →
      ((analyzeGo svc idGen total fuel i remaining st).progress).Chain'
        (fun p q => p.1 < q.1) := by
  intro fuel
  induction fuel with
  | zero =>
    intro remaining i st _ hch _
    cases remaining with
    | nil => exact hch
    | cons f fs => exact hch
  | succ fuel ih =>
    intro remaining i st htot hch hbound
    cases remaining with
    | nil => exact hch
    | cons f fs =>
      have hitot : i < total := by
        rcases htot with h | h
        · simp only [List.length_cons] at h
          omega
        · exact absurd h (by simp)
      rw [analyzeGo]
      cases hsvc : svc st.calls with
      | error e => exact hch
      | ok items =>
        have hentry : i < min (i + BATCH_SIZE) total := by
          simp only [BATCH_SIZE]
          omega
        have hch' : (st.progress ++ [(min (i + BATCH_SIZE) total, total)]).Chain'
            (fun p q => p.1 < q.1) := by
          rw [List.chain'_append]
          refine ⟨hch, List.chain'_singleton _, ?_⟩
          intro x hx y hy
          have hx' : x ∈ st.progress := List.mem_of_mem_getLast? hx
          have hy' : (min (i + BATCH_SIZE) total, total) = y := by
            simpa using hy
          subst hy'
          exact lt_of_le_of_lt (hbound x hx') hentry
        refine ih ((f :: fs).drop BATCH_SIZE) (i + BATCH_SIZE) _ ?_ hch' ?_
        · rcases Nat.lt_or_ge (f :: fs).length (BATCH_SIZE + 1) with hlt | hge
          · right
            have : (f :: fs).length ≤ BATCH_SIZE := by omega
            simpa [List.drop_eq_nil_iff] using this
          · left
            rw [List.length_drop]
            rcases htot with h | h
            · omega
            · exact absurd h (by simp)
        · intro p hp
          rcases List.mem_append.mp hp with hp | hp
          · exact le_trans (hbound p hp) (by simp [BATCH_SIZE])
          · rcases List.mem_singleton.mp hp with rfl
            exact min_le_left _ _

/-- C9: submitting 12 files (batch size 10) performs exactly 2 service
calls, with the progress callback invoked exactly twice, reporting
cumulative counts (10, 12) then (12, 12); and for every input (any file
list and any service behaviour), the reported cumulative processed counts
are strictly increasing. -/
theorem batch_progress_spec :
    (analyzeDocumentsMetadata (List.replicate 12 "f") (fun _ => .ok [])
      (fun _ => "id")).calls = 2 ∧
    (analyzeDocumentsMetadata (List.replicate 12 "f") (fun _ => .ok [])
      (fun _ => "id")).progress = [(10, 12), (12, 12)] ∧
    ∀ (files : List String) (svc : Nat → Except String (List RawItem))
      (idGen : Nat → String),
      ((analyzeDocumentsMetadata files svc idGen).progress).Chain'
        (fun p q => p.1 < q.1) := by
  refine ⟨by decide, by decide, fun files svc idGen => ?_⟩
  exact analyzeGo_progress_mono svc idGen files.length files.length files 0
    ⟨[], [], 0, 0⟩ (Or.inl (by simp)) List.chain'_nil (by simp)

/-- Every record `mkRecords` builds has a `null`-or-nonempty date: the
ingestion boundary normalizes `""` (and absence) to `null`. -/
theorem mkRecords_date_ne_empty (idGen : Nat → String) :
    ∀ (start : Nat) (its : List RawItem),
      ∀ r ∈ mkRecords idGen start its, ∀ s, r.date = some s → s ≠ ""
  | _, [], r, hr => by simp [mkRecords] at hr
  | start, it :: its, r, hr => by
    rcases List.mem_cons.mp hr with rfl | hr'
    · intro s hs
      have hs' : jsOrNull it.date = some s := hs
      cases hd : it.date with
      | none =>
        rw [hd] at hs'
        simp [jsOrNull] at hs'
      | some v =>
        rw [hd] at hs'
        by_cases hv : v = ""
        · simp [jsOrNull, hv] at hs'
        · simp only [jsOrNull, if_neg hv, Option.some.injEq] at hs'
          exact hs' ▸ hv
    · exact mkRecords_date_ne_empty idGen (start + 1) its r hr'

/-- The loop preserves the date-normalization invariant on its results. -/
theorem analyzeGo_dates (svc : Nat → Except String (List RawItem))
    (idGen : Nat → String) (total : Nat) :
    ∀ (fuel : Nat) (remaining : List String) (i : Nat) (st : AnalyzeState),
      (∀ r ∈ st.results, ∀ s, r.date = some s → s ≠ "") →
      ∀ rs, (analyzeGo svc idGen total fuel i remaining st).records = .ok rs →
      ∀ r ∈ rs, ∀ s, r.date = some s → s ≠ "" := by
  intro fuel
  induction fuel with
  | zero =>
    intro remaining i st hinv rs hrs
    cases remaining with
    | nil =>
      simp only [analyzeGo] at hrs
      exact (Except.ok.inj hrs) ▸ hinv
    | cons f fs =>
      simp only [analyzeGo] at hrs
      exact (Except.ok.inj hrs) ▸ hinv
  | succ fuel ih =>
    intro remaining i st hinv rs hrs
    cases remaining with
    | nil =>
      simp only [analyzeGo] at hrs
      exact (Except.ok.inj hrs) ▸ hinv
    | cons f fs =>
      rw [analyzeGo] at hrs
      cases hsvc : svc st.calls with
      | error e =>
        rw [hsvc] at hrs
        simp at hrs
      | ok items =>
        rw [hsvc] at hrs
        refine ih ((f :: fs).drop BATCH_SIZE) (i + BATCH_SIZE) _ ?_ rs hrs
        intro r hr
        rcases List.mem_append.mp hr with hr' | hr'
        · exact hinv r hr'
        · exact mkRecords_date_ne_empty idGen st.idCtr items r hr'

/-- C10: every classification record the orchestrator returns has a date
that is either `null` or a non-empty string — a missing or empty-string
date in a service response entry is normalized to `null` at the ingestion
boundary. -/
theorem classification_dates_normalized (files : List String)
    (svc : Nat → Except String (List RawItem)) (idGen : Nat → String)
    (rs : List MetaRecord)
    (hok : (analyzeDocumentsMetadata files svc idGen).records = .ok rs) :
    ∀ r ∈ rs, ∀ s, r.date = some s → s ≠ "" :=
  analyzeGo_dates svc idGen files.length files.length files 0 ⟨[], [], 0, 0⟩
    (by simp) rs hok

/-- C10 witness: a response entry carrying the empty-string date comes back
as a record with a `null` date, and the invariant holds on the concrete
output. -/
theorem classification_dates_normalized_witness :
    (analyzeDocumentsMetadata ["doc1"]
        (fun _ => .ok [⟨some "", "LAB", "finding", false⟩]) (fun _ => "id0")).records =
      .ok [⟨"id0", none, "LAB", "finding", false⟩] ∧
    (∀ r ∈ [(⟨"id0", none, "LAB", "finding", false⟩ : MetaRecord)],
      ∀ s, r.date = some s → s ≠ "") :=
  ⟨by decide,
    classification_dates_normalized ["doc1"]
      (fun _ => .ok [⟨some "", "LAB", "finding", false⟩]) (fun _ => "id0")
      [⟨"id0", none, "LAB", "finding", false⟩] (by decide)⟩
